import Mathlib

/-!
Shallow embedding of the pathfinding core of the grid-maze visualizer.
Namespace `A` models the main variant (`src/App.tsx`): a pure `findPath`
returning the discovered path, plus the timed `walk` playback loop.
Namespace `B` models the second variant, whose search animates itself by
mutating the grid (`visit` / `step`) and returns a success flag.

Modelling conventions:
* Coordinates are JS numbers used as integers; the code subtracts 1 from
  them, so positions are `Int × Int`.
* The grid is the row-major `Tile[][]` array, modelled as `List (List Tile)`.
* Reading `arr[i]` on a JS array yields `undefined` out of range; reads are
  modelled with `Option` (`listGet?`).  The write helper
  `set = (arr, idx, t) => arr.map((e, i) => i === idx ? t : e)` is modelled
  index for index (`set`, and `setWith` for its updater-function form).
  The main variant's `setTile` evaluates `state.tiles[y]!`, which at runtime
  throws a `TypeError` when row `y` does not exist; that failure is `none`.
* The JS `Set` of visited keys stores an injective string encoding of a
  position, so the set of keys is modelled directly as a `Finset` of
  positions.
* The randomized `shuffle` is modelled by an oracle `σ : Nat → Pos → List Pos`
  giving the list returned by the k-th call to `neighbors` during a run;
  `Shuffles σ` states that every answer is a permutation of the 4-neighbour
  list, which is exactly what `shuffle` guarantees.  Universally quantifying
  over `σ` quantifies over every possible sequence of shuffle outcomes.
* The recursion of `findPathHelp` is bounded by explicit fuel; fuel
  `cellCount g + 1` is proved sufficient (`help_total`), so the fuelled
  function agrees with the unbounded JS recursion.  The ghost counter `k`
  counts expansions (calls that compute `moves`, i.e. the calls to
  `neighbors`); it also indexes the shuffle oracle.
-/

namespace Pathfinding

inductive Tile where
  | Empty
  | Wall
  | Player
  | Goal
  | Path
  | ReachedGoal
  | Visited
deriving DecidableEq

abbrev Pos : Type := Int × Int

abbrev Grid : Type := List (List Tile)

/-- JS array read `l[i]` (`undefined`, i.e. `none`, out of range). -/
def listGet? (l : List α) (i : Int) : Option α :=
  if 0 ≤ i then l[i.toNat]? else none

/-- Source helper `set` (value form): `arr.map((e, i) => i === idx ? t : e)`;
`i` is the running index starting at 0. -/
def setGo (idx : Int) (t : α) : Nat → List α → List α
  | _, [] => []
  | i, e :: l => (if (i : Int) = idx then t else e) :: setGo idx t (i + 1) l

def set (l : List α) (idx : Int) (t : α) : List α := setGo idx t 0 l

/-- Source helper `set` in its updater-function form. -/
def setWithGo (idx : Int) (f : α → α) : Nat → List α → List α
  | _, [] => []
  | i, e :: l => (if (i : Int) = idx then f e else e) :: setWithGo idx f (i + 1) l

def setWith (l : List α) (idx : Int) (f : α → α) : List α := setWithGo idx f 0 l

/-- `getTile([x, y]) = state.tiles[y]?.[x] ?? Tile.Wall` (same in both
variants). -/
def getTile (g : Grid) (p : Pos) : Tile :=
  match listGet? g p.2 with
  | none => Tile.Wall
  | some row => (listGet? row p.1).getD Tile.Wall

/-- In-bounds positions of the (possibly ragged) tile matrix. -/
abbrev InB (g : Grid) (p : Pos) : Prop :=
  0 ≤ p.1 ∧ 0 ≤ p.2 ∧ p.2.toNat < g.length ∧ p.1.toNat < (g.getD p.2.toNat []).length

/-- Number of cells of the tile matrix (`width * height` when rectangular). -/
def cellCount (g : Grid) : Nat := (g.map List.length).sum

/-- The list passed to `shuffle` inside `neighbors`. -/
def baseNeighbors (p : Pos) : List Pos :=
  [(p.1 - 1, p.2), (p.1 + 1, p.2), (p.1, p.2 - 1), (p.1, p.2 + 1)]

/-- Oracle for the randomized `shuffle`: `σ k p` is the answer of the k-th
call to `neighbors` during a run, made at position `p`. -/
def Shuffles (σ : Nat → Pos → List Pos) : Prop :=
  ∀ k p, List.Perm (σ k p) (baseNeighbors p)

/-- The shuffle outcome that never reorders. -/
def sigma0 : Nat → Pos → List Pos := fun _ p => baseNeighbors p

/-- `allowed(p) = getTile(p) !== Tile.Wall && getTile(p) !== Tile.Player`. -/
def allowed (g : Grid) (p : Pos) : Bool :=
  decide (getTile g p ≠ Tile.Wall) && decide (getTile g p ≠ Tile.Player)

/-- Manhattan distance between two positions. -/
def mdist (p q : Pos) : Nat := (p.1 - q.1).natAbs + (p.2 - q.2).natAbs

/-- 4-connected routes from `a` whose positions after `a` all satisfy `ok`. -/
inductive Reaches (ok : Pos → Prop) (a : Pos) : Pos → Prop where
  | refl : Reaches ok a a
  | step {q r : Pos} : Reaches ok a q → mdist q r = 1 → ok r → Reaches ok a r

/-- Enumeration of the in-bounds positions, row by row; `y` is the index of
the first row of the remaining matrix. -/
def allCellsGo : Nat → Grid → List Pos
  | _, [] => []
  | y, row :: rest =>
    ((List.range row.length).map fun x : Nat => ((x : Int), (y : Int))) ++ allCellsGo (y + 1) rest

def allCells (g : Grid) : List Pos := allCellsGo 0 g

def cellsF (g : Grid) : Finset Pos := (allCells g).toFinset

/-- Number of in-bounds positions not yet visited. -/
def freeCount (g : Grid) (vis : Finset Pos) : Nat := (cellsF g \ vis).card

namespace A

/-- `setTile` of the main variant: evaluating `state.tiles[y]!` throws (is
`none`) when row `y` does not exist; otherwise the matrix is rebuilt with the
source helper `set`. -/
def setTile (g : Grid) (p : Pos) (t : Tile) : Option Grid :=
  match listGet? g p.2 with
  | none => none
  | some row => some (set g p.2 (set row p.1 t))

/-- `neighbors(start).filter(p => allowed(p) && !visited.has(pos(p)))`. -/
def movesOf (g : Grid) (σ : Nat → Pos → List Pos) (k : Nat) (vis : Finset Pos) (s : Pos) :
    List Pos :=
  (σ k s).filter fun p => allowed g p && !(decide (p ∈ vis))

/-- The recursive search of the main variant.  The JS closure mutates the
run-wide `visited` set, threaded here through the fold together with the
expansion counter `k`; `steps` is the accumulator parameter of the source
(always `[]` in every call the program makes). -/
def findPathHelp (g : Grid) (σ : Nat → Pos → List Pos) :
    Nat → Pos → List Pos → Finset Pos → Nat → Option (List Pos × Finset Pos × Nat)
  | 0, _, _, _, _ => none
  | d + 1, start, steps, vis, k =>
    if getTile g start = Tile.Goal then some (steps ++ [start], vis, k)
    else
      let moves := movesOf g σ k vis start
      moves.foldl
        (fun acc p =>
          match acc with
          | none => none
          | some (s, vis', k') =>
            match findPathHelp g σ d p steps vis' k' with
            | none => none
            | some (found, vis2, k2) =>
              some (if found = [] then s else p :: found, vis2, k2))
        (some ([], vis ∪ moves.toFinset, k + 1))

/-- The body of the `reduce` inside `findPathHelp`, with `d` the fuel handed
to the recursive calls. -/
def reduceStep (g : Grid) (σ : Nat → Pos → List Pos) (d : Nat) (steps : List Pos)
    (acc : Option (List Pos × Finset Pos × Nat)) (p : Pos) :
    Option (List Pos × Finset Pos × Nat) :=
  match acc with
  | none => none
  | some (s, vis', k') =>
    match findPathHelp g σ d p steps vis' k' with
    | none => none
    | some (found, vis2, k2) => some (if found = [] then s else p :: found, vis2, k2)

/-- `findPath(start)`: fresh `visited` set, then the recursive search. -/
def findPath (g : Grid) (σ : Nat → Pos → List Pos) (start : Pos) : List Pos :=
  match findPathHelp g σ (cellCount g + 1) start [] ∅ 0 with
  | some (r, _, _) => r
  | none => []

/-- The `walk` playback loop: reveal each queued position in turn. -/
def walk (g : Grid) : List Pos → Option Grid
  | [] => some g
  | p :: rest =>
    match (if getTile g p ≠ Tile.Goal then setTile g p Tile.Path
           else setTile g p Tile.ReachedGoal) with
    | none => none
    | some g2 => walk g2 rest

end A

namespace B

/-- `setTile` of the animated variant (updater form of `set`; total). -/
def setTile (g : Grid) (p : Pos) (t : Tile) : Grid :=
  setWith g p.2 fun l => set l p.1 t

/-- The ambient mutable state the animated variant's search works on. -/
structure SState where
  tiles : Grid
  visited : Finset Pos
  steps : List Pos
deriving DecidableEq

def visit (st : SState) (p : Pos) : SState :=
  if p ∈ st.visited then st
  else
    ⟨if getTile st.tiles p ≠ Tile.Goal then setTile st.tiles p Tile.Visited else st.tiles,
     insert p st.visited, st.steps⟩

def step (st : SState) (p : Pos) : SState :=
  ⟨if getTile st.tiles p ≠ Tile.Goal then setTile st.tiles p Tile.Path else st.tiles,
   st.visited, st.steps ++ [p]⟩

/-- The recursive search of the animated variant: visits every candidate,
then tries them in order and stops at the first success, recording the path
through `step` while unwinding. -/
def findPathHelp (σ : Nat → Pos → List Pos) :
    Nat → Pos → SState → Nat → Option (Bool × SState × Nat)
  | 0, _, _, _ => none
  | d + 1, start, st, k =>
    if getTile st.tiles start = Tile.Goal then some (true, st, k)
    else
      let moves := (σ k start).filter fun p => allowed st.tiles p && !(decide (p ∈ st.visited))
      let st1 := moves.foldl visit st
      moves.foldl
        (fun acc p =>
          match acc with
          | none => none
          | some (true, st2, k2) => some (true, st2, k2)
          | some (false, st2, k2) =>
            match findPathHelp σ d p st2 k2 with
            | none => none
            | some (true, st3, k3) => some (true, step st3 p, k3)
            | some (false, st3, k3) => some (false, st3, k3))
        (some (false, st1, k + 1))

/-- `findPath(start)`: reset `visited` and `steps`, then search. -/
def findPath (g : Grid) (σ : Nat → Pos → List Pos) (start : Pos) :
    Option (Bool × SState × Nat) :=
  findPathHelp σ (cellCount g + 1) start ⟨g, ∅, []⟩ 0

end B

end Pathfinding

namespace Pathfinding

theorem setGo_getElem? (idx : Int) (t : α) :
    ∀ (l : List α) (i n : Nat),
      (setGo idx t i l)[n]? = (l[n]?).map fun e => if ((i + n : Nat) : Int) = idx then t else e
  | [], i, n => by simp [setGo]
  | e :: l, i, 0 => by simp [setGo]
  | e :: l, i, n + 1 => by
    simp only [setGo, List.getElem?_cons_succ]
    rw [setGo_getElem? idx t l (i + 1) n]
    have h : ((i + 1 + n : Nat) : Int) = ((i + (n + 1) : Nat) : Int) := by push_cast; ring
    rw [h]

theorem set_getElem? (l : List α) (idx : Int) (t : α) (n : Nat) :
    (set l idx t)[n]? = (l[n]?).map fun e => if (n : Int) = idx then t else e := by
  simpa using setGo_getElem? idx t l 0 n

theorem setWithGo_getElem? (idx : Int) (f : α → α) :
    ∀ (l : List α) (i n : Nat),
      (setWithGo idx f i l)[n]? = (l[n]?).map fun e => if ((i + n : Nat) : Int) = idx then f e else e
  | [], i, n => by simp [setWithGo]
  | e :: l, i, 0 => by simp [setWithGo]
  | e :: l, i, n + 1 => by
    simp only [setWithGo, List.getElem?_cons_succ]
    rw [setWithGo_getElem? idx f l (i + 1) n]
    have h : ((i + 1 + n : Nat) : Int) = ((i + (n + 1) : Nat) : Int) := by push_cast; ring
    rw [h]

theorem setWith_getElem? (l : List α) (idx : Int) (f : α → α) (n : Nat) :
    (setWith l idx f)[n]? = (l[n]?).map fun e => if (n : Int) = idx then f e else e := by
  simpa using setWithGo_getElem? idx f l 0 n

theorem listGet?_eq_some {l : List α} {i : Int} {a : α} :
    listGet? l i = some a ↔ 0 ≤ i ∧ l[i.toNat]? = some a := by
  unfold listGet?
  split <;> simp_all

theorem listGet?_neg {l : List α} {i : Int} (h : i < 0) : listGet? l i = none := by
  unfold listGet?
  rw [if_neg (by omega)]

theorem listGet?_nonneg {l : List α} {i : Int} (h : 0 ≤ i) : listGet? l i = l[i.toNat]? := by
  unfold listGet?
  rw [if_pos h]

/-- `set` leaves every list unchanged when the index is out of range. -/
theorem set_oob {l : List α} {idx : Int} (t : α) (h : idx < 0 ∨ (l.length : Int) ≤ idx) :
    set l idx t = l := by
  apply List.ext_getElem?
  intro n
  rw [set_getElem?]
  rcases hn : l[n]? with _ | e
  · rfl
  · have hlen : n < l.length := (List.getElem?_eq_some.1 hn).1
    simp only [Option.map_some']
    rw [if_neg (by omega)]

/-- Writing back the element already stored leaves the list unchanged. -/
theorem set_self {l : List α} {i : Int} {a : α} (h : listGet? l i = some a) :
    set l i a = l := by
  obtain ⟨hi, hget⟩ := listGet?_eq_some.1 h
  apply List.ext_getElem?
  intro n
  rw [set_getElem?]
  rcases hn : l[n]? with _ | e
  · rfl
  · simp only [Option.map_some']
    by_cases hni : (n : Int) = i
    · have : n = i.toNat := by omega
      subst this
      rw [hn] at hget
      simp_all
    · rw [if_neg hni]

theorem setWith_oob {l : List α} {idx : Int} (f : α → α) (h : idx < 0 ∨ (l.length : Int) ≤ idx) :
    setWith l idx f = l := by
  apply List.ext_getElem?
  intro n
  rw [setWith_getElem?]
  rcases hn : l[n]? with _ | e
  · rfl
  · have hlen : n < l.length := (List.getElem?_eq_some.1 hn).1
    simp only [Option.map_some']
    rw [if_neg (by omega)]

/-- When the updater fixes the stored row, `setWith` is the identity. -/
theorem setWith_fix {l : List α} {i : Int} {a : α} (f : α → α) (h : listGet? l i = some a)
    (hfix : f a = a) : setWith l i f = l := by
  obtain ⟨hi, hget⟩ := listGet?_eq_some.1 h
  apply List.ext_getElem?
  intro n
  rw [setWith_getElem?]
  rcases hn : l[n]? with _ | e
  · rfl
  · simp only [Option.map_some']
    by_cases hni : (n : Int) = i
    · have : n = i.toNat := by omega
      subst this
      rw [hn] at hget
      simp_all
    · rw [if_neg hni]

theorem getElem?_eq_some_getD {l : List α} {n : Nat} (h : n < l.length) (d : α) :
    l[n]? = some (l.getD n d) := by
  rw [List.getD_eq_getElem?_getD, List.getElem?_eq_getElem h]
  rfl

theorem getTile_eq_bind (g : Grid) (p : Pos) :
    getTile g p = ((listGet? g p.2).bind fun row => listGet? row p.1).getD Tile.Wall := by
  unfold getTile
  rcases listGet? g p.2 with _ | row <;> rfl

theorem getTile_of_not_inb {g : Grid} {p : Pos} (h : ¬ InB g p) : getTile g p = Tile.Wall := by
  rw [getTile_eq_bind]
  rcases hy : listGet? g p.2 with _ | row
  · rfl
  · obtain ⟨hy0, hyget⟩ := listGet?_eq_some.1 hy
    have hylen : p.2.toNat < g.length := (List.getElem?_eq_some.1 hyget).1
    have hrow : row = g.getD p.2.toNat [] := by
      rw [List.getD_eq_getElem?_getD, hyget]
      rfl
    rcases hx : listGet? row p.1 with _ | e
    · simp [hx]
    · obtain ⟨hx0, hxget⟩ := listGet?_eq_some.1 hx
      have hxlen : p.1.toNat < row.length := (List.getElem?_eq_some.1 hxget).1
      exact absurd ⟨hx0, hy0, hylen, hrow ▸ hxlen⟩ h

theorem getTile_inb {g : Grid} {p : Pos} (h : InB g p) :
    getTile g p = (g.getD p.2.toNat []).getD p.1.toNat Tile.Empty := by
  obtain ⟨hx0, hy0, hylen, hxlen⟩ := h
  rw [getTile_eq_bind, listGet?_nonneg hy0, getElem?_eq_some_getD hylen ([] : List Tile)]
  rw [Option.some_bind, listGet?_nonneg hx0, getElem?_eq_some_getD hxlen Tile.Empty]
  rfl

theorem inb_of_getTile_ne_wall {g : Grid} {p : Pos} (h : getTile g p ≠ Tile.Wall) : InB g p := by
  by_contra hc
  exact h (getTile_of_not_inb hc)

theorem allowed_iff {g : Grid} {p : Pos} :
    allowed g p = true ↔ getTile g p ≠ Tile.Wall ∧ getTile g p ≠ Tile.Player := by
  simp [allowed]

theorem inb_of_allowed {g : Grid} {p : Pos} (h : allowed g p = true) : InB g p :=
  inb_of_getTile_ne_wall (allowed_iff.1 h).1

theorem mem_baseNeighbors_iff {p q : Pos} : q ∈ baseNeighbors p ↔ mdist p q = 1 := by
  obtain ⟨x, y⟩ := p
  obtain ⟨a, b⟩ := q
  simp only [baseNeighbors, List.mem_cons, List.not_mem_nil, or_false, Prod.mk.injEq, mdist]
  omega

theorem baseNeighbors_nodup (p : Pos) : (baseNeighbors p).Nodup := by
  obtain ⟨x, y⟩ := p
  simp [baseNeighbors, Prod.ext_iff]
  omega

end Pathfinding

namespace Pathfinding

theorem mem_movesOf {g : Grid} {σ : Nat → Pos → List Pos} {k : Nat} {vis : Finset Pos}
    {s p : Pos} :
    p ∈ A.movesOf g σ k vis s ↔ p ∈ σ k s ∧ allowed g p = true ∧ p ∉ vis := by
  simp [A.movesOf, List.mem_filter, and_assoc]

theorem movesOf_nodup {g : Grid} {σ : Nat → Pos → List Pos} (hσ : Shuffles σ) (k : Nat)
    (vis : Finset Pos) (s : Pos) : (A.movesOf g σ k vis s).Nodup :=
  (((hσ k s).nodup_iff).2 (baseNeighbors_nodup s)).filter _

theorem mdist_of_mem_movesOf {g : Grid} {σ : Nat → Pos → List Pos} (hσ : Shuffles σ)
    {k : Nat} {vis : Finset Pos} {s p : Pos} (h : p ∈ A.movesOf g σ k vis s) :
    mdist s p = 1 :=
  mem_baseNeighbors_iff.1 ((hσ k s).mem_iff.1 (mem_movesOf.1 h).1)

theorem mem_movesOf_of_base {g : Grid} {σ : Nat → Pos → List Pos} (hσ : Shuffles σ)
    {k : Nat} {vis : Finset Pos} {s p : Pos} (hb : p ∈ baseNeighbors s)
    (ha : allowed g p = true) (hv : p ∉ vis) : p ∈ A.movesOf g σ k vis s :=
  mem_movesOf.2 ⟨(hσ k s).mem_iff.2 hb, ha, hv⟩

theorem mem_allCellsGo {g : Grid} {y : Nat} {p : Pos} :
    p ∈ allCellsGo y g ↔
      ∃ j x : Nat, j < g.length ∧ x < (g.getD j []).length ∧
        p.1 = (x : Int) ∧ p.2 = ((y + j : Nat) : Int) := by
  induction g generalizing y with
  | nil => simp [allCellsGo]
  | cons row rest ih =>
    constructor
    · intro h
      rcases List.mem_append.1 h with h1 | h2
      · rcases List.mem_map.1 h1 with ⟨x, hx, hpx⟩
        refine ⟨0, x, by simp, by simpa using List.mem_range.1 hx, ?_, ?_⟩
        · rw [← hpx]
        · rw [← hpx]
          simp
      · obtain ⟨j, x, hj, hx, h1, h2⟩ := ih.1 h2
        refine ⟨j + 1, x, by simpa using hj, by simpa using hx, h1, ?_⟩
        rw [h2]
        congr 1
        omega
    · rintro ⟨j, x, hj, hx, h1, h2⟩
      match j with
      | 0 =>
        apply List.mem_append.2
        refine Or.inl (List.mem_map.2 ⟨x, List.mem_range.2 (by simpa using hx), ?_⟩)
        have hy : p.2 = (y : Int) := by rw [h2]; simp
        obtain ⟨a, b⟩ := p
        simp only [Prod.mk.injEq]
        exact ⟨h1.symm, hy.symm⟩
      | j + 1 =>
        apply List.mem_append.2
        refine Or.inr (ih.2 ⟨j, x, by simpa using hj, by simpa using hx, h1, ?_⟩)
        rw [h2]
        congr 1
        omega

theorem mem_allCells {g : Grid} {p : Pos} : p ∈ allCells g ↔ InB g p := by
  unfold allCells
  rw [mem_allCellsGo]
  constructor
  · rintro ⟨j, x, hj, hx, h1, h2⟩
    simp only [Nat.zero_add] at h2
    refine ⟨by omega, by omega, ?_, ?_⟩
    · have : p.2.toNat = j := by omega
      rw [this]
      exact hj
    · have hj2 : p.2.toNat = j := by omega
      have hx2 : p.1.toNat = x := by omega
      rw [hj2, hx2]
      exact hx
  · rintro ⟨hx0, hy0, hylen, hxlen⟩
    exact ⟨p.2.toNat, p.1.toNat, hylen, hxlen, by omega, by omega⟩

theorem allCellsGo_snd_le {g : Grid} {y : Nat} {p : Pos} (h : p ∈ allCellsGo y g) :
    (y : Int) ≤ p.2 := by
  obtain ⟨j, x, _, _, _, h2⟩ := mem_allCellsGo.1 h
  rw [h2]
  omega

theorem allCellsGo_nodup (g : Grid) : ∀ y : Nat, (allCellsGo y g).Nodup := by
  induction g with
  | nil => intro y; simp [allCellsGo]
  | cons row rest ih =>
    intro y
    rw [allCellsGo, List.nodup_append]
    have hinj : Function.Injective fun x : Nat => ((x : Int), (y : Int)) := by
      intro a b hab
      have h := congrArg Prod.fst hab
      simpa using h
    refine ⟨(List.nodup_range _).map hinj, ih (y + 1), ?_⟩
    intro p hp hp2
    rcases List.mem_map.1 hp with ⟨x, _, rfl⟩
    have h2 := allCellsGo_snd_le hp2
    simp at h2

theorem allCellsGo_length (g : Grid) : ∀ y : Nat, (allCellsGo y g).length = cellCount g := by
  induction g with
  | nil => intro y; rfl
  | cons row rest ih =>
    intro y
    simp only [allCellsGo, List.length_append, List.length_map, List.length_range, ih (y + 1),
      cellCount, List.map_cons, List.sum_cons]

theorem cellsF_card (g : Grid) : (cellsF g).card = cellCount g := by
  rw [cellsF, allCells, List.toFinset_card_of_nodup (allCellsGo_nodup g 0)]
  exact allCellsGo_length g 0

theorem mem_cellsF {g : Grid} {p : Pos} : p ∈ cellsF g ↔ InB g p := by
  rw [cellsF, List.mem_toFinset]
  exact mem_allCells

theorem freeCount_antitone {g : Grid} {vis vis' : Finset Pos} (h : vis ⊆ vis') :
    freeCount g vis' ≤ freeCount g vis :=
  Finset.card_le_card (Finset.sdiff_subset_sdiff (Finset.Subset.refl _) h)

theorem freeCount_union {g : Grid} {vis M : Finset Pos} (h : M ⊆ cellsF g \ vis) :
    freeCount g (vis ∪ M) + M.card = freeCount g vis := by
  unfold freeCount
  have hs : cellsF g \ (vis ∪ M) = (cellsF g \ vis) \ M := by
    ext a
    simp only [Finset.mem_sdiff, Finset.mem_union]
    tauto
  rw [hs, Finset.card_sdiff h]
  exact Nat.sub_add_cancel (Finset.card_le_card h)

theorem freeCount_empty (g : Grid) : freeCount g ∅ = cellCount g := by
  unfold freeCount
  rw [Finset.sdiff_empty]
  exact cellsF_card g

end Pathfinding

namespace Pathfinding

theorem help_zero (g : Grid) (σ : Nat → Pos → List Pos) (s : Pos) (steps : List Pos)
    (vis : Finset Pos) (k : Nat) : A.findPathHelp g σ 0 s steps vis k = none := rfl

theorem help_succ (g : Grid) (σ : Nat → Pos → List Pos) (d : Nat) (s : Pos) (steps : List Pos)
    (vis : Finset Pos) (k : Nat) :
    A.findPathHelp g σ (d + 1) s steps vis k =
      if getTile g s = Tile.Goal then some (steps ++ [s], vis, k)
      else
        (A.movesOf g σ k vis s).foldl (A.reduceStep g σ d steps)
          (some ([], vis ∪ (A.movesOf g σ k vis s).toFinset, k + 1)) := rfl

theorem foldl_reduce_none (g : Grid) (σ : Nat → Pos → List Pos) (d : Nat) (steps : List Pos) :
    ∀ l : List Pos, l.foldl (A.reduceStep g σ d steps) none = none
  | [] => rfl
  | _ :: rest => foldl_reduce_none g σ d steps rest

theorem reduceStep_some {g : Grid} {σ : Nat → Pos → List Pos} {d : Nat} {steps : List Pos}
    {s0 : List Pos} {vis0 : Finset Pos} {k0 : Nat} {p : Pos} :
    A.reduceStep g σ d steps (some (s0, vis0, k0)) p =
      match A.findPathHelp g σ d p steps vis0 k0 with
      | none => none
      | some (found, vis2, k2) => some (if found = [] then s0 else p :: found, vis2, k2) := rfl

theorem foldl_reduce_ne_nil {g : Grid} {σ : Nat → Pos → List Pos} {d : Nat} {steps : List Pos} :
    ∀ (l : List Pos) (s0 : List Pos) (vis0 : Finset Pos) (k0 : Nat) {r : List Pos}
      {vis' : Finset Pos} {k' : Nat},
      l.foldl (A.reduceStep g σ d steps) (some (s0, vis0, k0)) = some (r, vis', k') →
      s0 ≠ [] → r ≠ [] := by
  intro l
  induction l with
  | nil =>
    intro s0 vis0 k0 r vis' k' hf hne
    simp only [List.foldl_nil, Option.some.injEq, Prod.mk.injEq] at hf
    rw [← hf.1]
    exact hne
  | cons p rest ihl =>
    intro s0 vis0 k0 r vis' k' hf hne
    rw [List.foldl_cons, reduceStep_some] at hf
    rcases hc : A.findPathHelp g σ d p steps vis0 k0 with _ | ⟨found, vis2, k2⟩
    · rw [hc] at hf
      rw [foldl_reduce_none] at hf
      exact absurd hf (by simp)
    · rw [hc] at hf
      refine ihl _ vis2 k2 hf ?_
      by_cases hfound : found = []
      · rw [if_pos hfound]
        exact hne
      · rw [if_neg hfound]
        simp

theorem help_mono {g : Grid} {σ : Nat → Pos → List Pos} :
    ∀ (d : Nat) (s : Pos) (steps : List Pos) (vis : Finset Pos) (k : Nat) {r : List Pos}
      {vis' : Finset Pos} {k' : Nat},
      A.findPathHelp g σ d s steps vis k = some (r, vis', k') → vis ⊆ vis' ∧ k ≤ k' := by
  intro d
  induction d with
  | zero =>
    intro s steps vis k r vis' k' h
    exact absurd h (by simp [help_zero])
  | succ d ih =>
    intro s steps vis k r vis' k' h
    rw [help_succ] at h
    by_cases hg : getTile g s = Tile.Goal
    · rw [if_pos hg] at h
      simp only [Option.some.injEq, Prod.mk.injEq] at h
      rw [← h.2.1, ← h.2.2]
      exact ⟨Finset.Subset.refl _, Nat.le_refl _⟩
    · rw [if_neg hg] at h
      have aux : ∀ (l : List Pos) (s0 : List Pos) (vis0 : Finset Pos) (k0 : Nat) {r : List Pos}
          {vis' : Finset Pos} {k' : Nat},
          l.foldl (A.reduceStep g σ d steps) (some (s0, vis0, k0)) = some (r, vis', k') →
          vis0 ⊆ vis' ∧ k0 ≤ k' := by
        intro l
        induction l with
        | nil =>
          intro s0 vis0 k0 r vis' k' hf
          simp only [List.foldl_nil, Option.some.injEq, Prod.mk.injEq] at hf
          rw [← hf.2.1, ← hf.2.2]
          exact ⟨Finset.Subset.refl _, Nat.le_refl _⟩
        | cons p rest ihl =>
          intro s0 vis0 k0 r vis' k' hf
          rw [List.foldl_cons, reduceStep_some] at hf
          rcases hc : A.findPathHelp g σ d p steps vis0 k0 with _ | ⟨found, vis2, k2⟩
          · rw [hc, foldl_reduce_none] at hf
            exact absurd hf (by simp)
          · rw [hc] at hf
            have h1 := ih p steps vis0 k0 hc
            have h2 := ihl _ vis2 k2 hf
            exact ⟨h1.1.trans h2.1, h1.2.trans h2.2⟩
      have h0 := aux _ _ _ _ h
      exact ⟨(Finset.subset_union_left).trans h0.1, (Nat.le_succ k).trans h0.2⟩

end Pathfinding

namespace Pathfinding

theorem getLast?_cons_of_ne_nil {a : α} {l : List α} (h : l ≠ []) :
    (a :: l).getLast? = l.getLast? := by
  cases l with
  | nil => exact absurd rfl h
  | cons b t => exact List.getLast?_cons_cons

theorem foldl_reduce_success_inv {g : Grid} {σ : Nat → Pos → List Pos} {d : Nat}
    {steps : List Pos} :
    ∀ (l : List Pos) (s0 : List Pos) (vis0 : Finset Pos) (k0 : Nat) {r : List Pos}
      {vis' : Finset Pos} {k' : Nat},
      l.foldl (A.reduceStep g σ d steps) (some (s0, vis0, k0)) = some (r, vis', k') →
      r = s0 ∨ ∃ p visA kA found visB kB, p ∈ l ∧
        A.findPathHelp g σ d p steps visA kA = some (found, visB, kB) ∧ found ≠ [] ∧
        r = p :: found := by
  intro l
  induction l with
  | nil =>
    intro s0 vis0 k0 r vis' k' hf
    simp only [List.foldl_nil, Option.some.injEq, Prod.mk.injEq] at hf
    exact Or.inl hf.1.symm
  | cons p rest ihl =>
    intro s0 vis0 k0 r vis' k' hf
    rw [List.foldl_cons, reduceStep_some] at hf
    rcases hc : A.findPathHelp g σ d p steps vis0 k0 with _ | ⟨found, vis2, k2⟩
    · rw [hc, foldl_reduce_none] at hf
      exact absurd hf (by simp)
    · rw [hc] at hf
      rcases ihl _ vis2 k2 hf with hr | ⟨q, visA, kA, found2, visB, kB, hq, hcall, hne, hr⟩
      · by_cases hfound : found = []
        · rw [if_pos hfound] at hr
          exact Or.inl hr
        · rw [if_neg hfound] at hr
          exact Or.inr ⟨p, vis0, k0, found, vis2, k2, List.mem_cons_self p rest, hc, hfound, hr⟩
      · exact Or.inr ⟨q, visA, kA, found2, visB, kB, List.mem_cons_of_mem p hq, hcall, hne, hr⟩

theorem help_success {g : Grid} {σ : Nat → Pos → List Pos} (hσ : Shuffles σ) (a : Pos) :
    ∀ (d : Nat) (s : Pos) (vis : Finset Pos) (k : Nat) {r : List Pos} {vis' : Finset Pos}
      {k' : Nat},
      A.findPathHelp g σ d s [] vis k = some (r, vis', k') → r ≠ [] →
      Reaches (fun p => getTile g p ≠ Tile.Wall) a s →
      ∃ gp, r.getLast? = some gp ∧ getTile g gp = Tile.Goal ∧
        Reaches (fun p => getTile g p ≠ Tile.Wall) a gp := by
  intro d
  induction d with
  | zero =>
    intro s vis k r vis' k' h
    exact absurd h (by simp [help_zero])
  | succ d ih =>
    intro s vis k r vis' k' h hr hreach
    rw [help_succ] at h
    by_cases hg : getTile g s = Tile.Goal
    · rw [if_pos hg] at h
      simp only [List.nil_append, Option.some.injEq, Prod.mk.injEq] at h
      refine ⟨s, ?_, hg, hreach⟩
      rw [← h.1]
      rfl
    · rw [if_neg hg] at h
      rcases foldl_reduce_success_inv _ _ _ _ h with hnil |
        ⟨p, visA, kA, found, visB, kB, hp, hcall, hne, hrpf⟩
      · exact absurd hnil hr
      · have hall : allowed g p = true := (mem_movesOf.1 hp).2.1
        have hstep : Reaches (fun q => getTile g q ≠ Tile.Wall) a p :=
          Reaches.step hreach (mdist_of_mem_movesOf hσ hp) (allowed_iff.1 hall).1
        obtain ⟨gp, hlast, hgoal, hrgp⟩ := ih p visA kA hcall hne hstep
        refine ⟨gp, ?_, hgoal, hrgp⟩
        rw [hrpf, getLast?_cons_of_ne_nil hne]
        exact hlast

end Pathfinding

namespace Pathfinding

theorem reduceStep_child_none {g : Grid} {σ : Nat → Pos → List Pos} {d : Nat} {steps : List Pos}
    {s0 : List Pos} {vis0 : Finset Pos} {k0 : Nat} {p : Pos}
    (hc : A.findPathHelp g σ d p steps vis0 k0 = none) :
    A.reduceStep g σ d steps (some (s0, vis0, k0)) p = none := by
  simp only [A.reduceStep, hc]

theorem reduceStep_child_some {g : Grid} {σ : Nat → Pos → List Pos} {d : Nat} {steps : List Pos}
    {s0 : List Pos} {vis0 : Finset Pos} {k0 : Nat} {p : Pos} {found : List Pos}
    {vis2 : Finset Pos} {k2 : Nat}
    (hc : A.findPathHelp g σ d p steps vis0 k0 = some (found, vis2, k2)) :
    A.reduceStep g σ d steps (some (s0, vis0, k0)) p =
      some (if found = [] then s0 else p :: found, vis2, k2) := by
  simp only [A.reduceStep, hc]

theorem help_fail {g : Grid} {σ : Nat → Pos → List Pos} (hσ : Shuffles σ) :
    ∀ (d : Nat) (s : Pos) (steps : List Pos) (vis : Finset Pos) (k : Nat) {vis' : Finset Pos}
      {k' : Nat},
      A.findPathHelp g σ d s steps vis k = some ([], vis', k') →
      getTile g s ≠ Tile.Goal ∧ vis ⊆ vis' ∧
      (∀ n ∈ baseNeighbors s, allowed g n = true → n ∈ vis') ∧
      (∀ q ∈ vis', q ∉ vis →
        getTile g q ≠ Tile.Goal ∧ ∀ n ∈ baseNeighbors q, allowed g n = true → n ∈ vis') := by
  intro d
  induction d with
  | zero =>
    intro s steps vis k vis' k' h
    exact absurd h (by simp [help_zero])
  | succ d ih =>
    intro s steps vis k vis' k' h
    rw [help_succ] at h
    by_cases hg : getTile g s = Tile.Goal
    · rw [if_pos hg] at h
      simp only [Option.some.injEq, Prod.mk.injEq] at h
      exact absurd h.1 (by simp)
    · rw [if_neg hg] at h
      have aux : ∀ (l : List Pos) (visC : Finset Pos) (kC : Nat) {vis' : Finset Pos} {k' : Nat},
          (∀ x ∈ l, x ∈ visC) →
          vis ⊆ visC →
          (∀ q ∈ visC, q ∉ vis → q ∈ l ∨
            (getTile g q ≠ Tile.Goal ∧ ∀ n ∈ baseNeighbors q, allowed g n = true → n ∈ visC)) →
          l.foldl (A.reduceStep g σ d steps) (some ([], visC, kC)) = some ([], vis', k') →
          visC ⊆ vis' ∧
          (∀ q ∈ vis', q ∉ vis →
            getTile g q ≠ Tile.Goal ∧ ∀ n ∈ baseNeighbors q, allowed g n = true → n ∈ vis') := by
        intro l
        induction l with
        | nil =>
          intro visC kC vis' k' hsub hvis hclosed hf
          simp only [List.foldl_nil, Option.some.injEq, Prod.mk.injEq, true_and] at hf
          obtain ⟨h2, -⟩ := hf
          subst h2
          refine ⟨Finset.Subset.refl _, ?_⟩
          intro q hq hqv
          rcases hclosed q hq hqv with hql | hqc
          · exact absurd hql (List.not_mem_nil q)
          · exact hqc
        | cons p rest ihl =>
          intro visC kC vis' k' hsub hvis hclosed hf
          rw [List.foldl_cons] at hf
          rcases hc : A.findPathHelp g σ d p steps visC kC with _ | ⟨found, vis2, k2⟩
          · rw [reduceStep_child_none hc, foldl_reduce_none] at hf
            exact absurd hf (by simp)
          · rw [reduceStep_child_some hc] at hf
            by_cases hfound : found = []
            · rw [if_pos hfound] at hf
              subst hfound
              obtain ⟨hgp, hsub2, hnb2, hcl2⟩ := ih p steps visC kC hc
              have hclosed2 : ∀ q ∈ vis2, q ∉ vis → q ∈ rest ∨
                  (getTile g q ≠ Tile.Goal ∧
                    ∀ n ∈ baseNeighbors q, allowed g n = true → n ∈ vis2) := by
                intro q hq hqv
                by_cases hqC : q ∈ visC
                · rcases hclosed q hqC hqv with hql | hqc
                  · rcases List.mem_cons.1 hql with rfl | hqrest
                    · exact Or.inr ⟨hgp, fun n hn han => hnb2 n hn han⟩
                    · exact Or.inl hqrest
                  · exact Or.inr ⟨hqc.1, fun n hn han => hsub2 (hqc.2 n hn han)⟩
                · exact Or.inr (hcl2 q hq hqC)
              have hstep := ihl vis2 k2
                (fun x hx => hsub2 (hsub x (List.mem_cons_of_mem p hx)))
                (hvis.trans hsub2) hclosed2 hf
              exact ⟨hsub2.trans hstep.1, hstep.2⟩
            · rw [if_neg hfound] at hf
              exact absurd rfl (foldl_reduce_ne_nil rest _ vis2 k2 hf (by simp))
      have h0 := aux (A.movesOf g σ k vis s) (vis ∪ (A.movesOf g σ k vis s).toFinset) (k + 1)
        (fun x hx => Finset.mem_union_right _ (List.mem_toFinset.2 hx))
        Finset.subset_union_left
        (fun q hq hqv => Or.inl (List.mem_toFinset.1 ((Finset.mem_union.1 hq).resolve_left hqv)))
        h
      refine ⟨hg, Finset.subset_union_left.trans h0.1, ?_, h0.2⟩
      intro n hn han
      by_cases hnv : n ∈ vis
      · exact (Finset.subset_union_left.trans h0.1) hnv
      · exact h0.1 (Finset.mem_union_right _
          (List.mem_toFinset.2 (mem_movesOf_of_base hσ hn han hnv)))

end Pathfinding

namespace Pathfinding

theorem help_total {g : Grid} {σ : Nat → Pos → List Pos} (hσ : Shuffles σ) :
    ∀ (d : Nat) (s : Pos) (steps : List Pos) (vis : Finset Pos) (k : Nat),
      freeCount g vis + 1 ≤ d →
      ∃ r vis' k', A.findPathHelp g σ d s steps vis k = some (r, vis', k') ∧
        vis ⊆ vis' ∧ k' + freeCount g vis' ≤ k + 1 + freeCount g vis := by
  intro d
  induction d with
  | zero =>
    intro s steps vis k hd
    omega
  | succ d ih =>
    intro s steps vis k hd
    by_cases hg : getTile g s = Tile.Goal
    · refine ⟨steps ++ [s], vis, k, ?_, Finset.Subset.refl _, by omega⟩
      rw [help_succ, if_pos hg]
    · have hsubM : (A.movesOf g σ k vis s).toFinset ⊆ cellsF g \ vis := by
        intro x hx
        have hm := mem_movesOf.1 (List.mem_toFinset.1 hx)
        exact Finset.mem_sdiff.2 ⟨mem_cellsF.2 (inb_of_allowed hm.2.1), hm.2.2⟩
      have hcard : (A.movesOf g σ k vis s).toFinset.card = (A.movesOf g σ k vis s).length :=
        List.toFinset_card_of_nodup (movesOf_nodup hσ k vis s)
      have hFC := freeCount_union hsubM
      have aux : ∀ (l : List Pos) (s0 : List Pos) (vis0 : Finset Pos) (k0 : Nat),
          freeCount g vis0 + 1 ≤ d →
          ∃ r vis' k', l.foldl (A.reduceStep g σ d steps) (some (s0, vis0, k0)) =
              some (r, vis', k') ∧
            vis0 ⊆ vis' ∧ k' + freeCount g vis' ≤ k0 + l.length + freeCount g vis0 := by
        intro l
        induction l with
        | nil =>
          intro s0 vis0 k0 hfuel
          exact ⟨s0, vis0, k0, rfl, Finset.Subset.refl _, by simp⟩
        | cons p rest ihl =>
          intro s0 vis0 k0 hfuel
          obtain ⟨found, vis2, k2, hc, hsub2, hcount2⟩ := ih p steps vis0 k0 hfuel
          have hfuel2 : freeCount g vis2 + 1 ≤ d :=
            le_trans (by have := @freeCount_antitone g vis0 vis2 hsub2; omega) hfuel
          obtain ⟨r, vis', k', hf, hsubf, hcf⟩ :=
            ihl (if found = [] then s0 else p :: found) vis2 k2 hfuel2
          refine ⟨r, vis', k', ?_, hsub2.trans hsubf, ?_⟩
          · rw [List.foldl_cons, reduceStep_child_some hc]
            exact hf
          · simp only [List.length_cons]
            omega
      by_cases hm : A.movesOf g σ k vis s = []
      · refine ⟨[], vis ∪ (A.movesOf g σ k vis s).toFinset, k + 1, ?_, Finset.subset_union_left,
          ?_⟩
        · rw [help_succ, if_neg hg, hm]
          rfl
        · rw [hm]
          simp only [List.toFinset_nil, Finset.union_empty]
          omega
      · have hlen : 1 ≤ (A.movesOf g σ k vis s).length := List.length_pos.2 hm
        have hfuel1 : freeCount g (vis ∪ (A.movesOf g σ k vis s).toFinset) + 1 ≤ d := by
          omega
        obtain ⟨r, vis', k', hf, hsubf, hcf⟩ :=
          aux (A.movesOf g σ k vis s) [] (vis ∪ (A.movesOf g σ k vis s).toFinset) (k + 1) hfuel1
        refine ⟨r, vis', k', ?_, Finset.subset_union_left.trans hsubf, by omega⟩
        rw [help_succ, if_neg hg]
        exact hf

end Pathfinding

namespace Pathfinding

theorem rowlen_of_rect {g : Grid}
    (hrect : ∀ row ∈ g, row.length = (g.headD []).length) :
    ∀ y : Nat, y < g.length → (g.getD y []).length = (g.headD []).length := by
  intro y hy
  apply hrect
  have h := getElem?_eq_some_getD hy ([] : List Tile)
  obtain ⟨h1, h2⟩ := List.getElem?_eq_some.1 h
  exact h2 ▸ List.getElem_mem _

theorem mdist_zero {p q : Pos} (h : mdist p q = 0) : p = q := by
  obtain ⟨x, y⟩ := p
  obtain ⟨a, b⟩ := q
  unfold mdist at h
  simp only [Prod.mk.injEq]
  constructor <;> omega

theorem reach_open {g : Grid} {a : Pos}
    (hrect : ∀ row ∈ g, row.length = (g.headD []).length)
    (hW : ∀ p, InB g p → getTile g p ≠ Tile.Wall)
    (hP : ∀ p, InB g p → getTile g p = Tile.Player → p = a)
    (ha : InB g a) :
    ∀ (n : Nat) (t : Pos), InB g t → mdist a t = n →
      Reaches (fun p => allowed g p = true) a t := by
  have hrow := rowlen_of_rect hrect
  intro n
  induction n with
  | zero =>
    intro t _ hm
    rw [mdist_zero hm]
    exact Reaches.refl
  | succ n ihn =>
    intro t ht hm
    have hta : t ≠ a := by
      intro hta
      rw [hta] at hm
      unfold mdist at hm
      omega
    have hallow : allowed g t = true :=
      allowed_iff.2 ⟨hW t ht, fun hpl => hta (hP t ht hpl)⟩
    obtain ⟨tx, ty⟩ := t
    obtain ⟨ax, ay⟩ := a
    obtain ⟨htx0, hty0, htyl, htxl⟩ := ht
    obtain ⟨hax0, hay0, hayl, haxl⟩ := ha
    simp only at htx0 hty0 htyl htxl hax0 hay0 hayl haxl
    rw [hrow _ htyl] at htxl
    rw [hrow _ hayl] at haxl
    unfold mdist at hm
    simp only at hm
    by_cases hxeq : ax = tx
    · by_cases hylt : ay < ty
      · have hb : (ty - 1).toNat < g.length := by omega
        have ht' : InB g (tx, (ty - 1 : Int)) := by
          refine ⟨htx0, by omega, hb, ?_⟩
          simp only
          rw [hrow _ hb]
          exact htxl
        refine Reaches.step (ihn (tx, (ty - 1 : Int)) ht' ?_) ?_ hallow <;>
          (unfold mdist; simp only; omega)
      · have hb : (ty + 1).toNat < g.length := by omega
        have ht' : InB g (tx, (ty + 1 : Int)) := by
          refine ⟨htx0, by omega, hb, ?_⟩
          simp only
          rw [hrow _ hb]
          exact htxl
        refine Reaches.step (ihn (tx, (ty + 1 : Int)) ht' ?_) ?_ hallow <;>
          (unfold mdist; simp only; omega)
    · by_cases hxlt : ax < tx
      · have ht' : InB g ((tx - 1 : Int), ty) := by
          refine ⟨by omega, hty0, htyl, ?_⟩
          simp only
          rw [hrow _ htyl]
          omega
        refine Reaches.step (ihn ((tx - 1 : Int), ty) ht' ?_) ?_ hallow <;>
          (unfold mdist; simp only; omega)
      · have ht' : InB g ((tx + 1 : Int), ty) := by
          refine ⟨by omega, hty0, htyl, ?_⟩
          simp only
          rw [hrow _ htyl]
          omega
        refine Reaches.step (ihn ((tx + 1 : Int), ty) ht' ?_) ?_ hallow <;>
          (unfold mdist; simp only; omega)

end Pathfinding

namespace Pathfinding

namespace B

/-- The body of the candidate loop inside the animated `findPathHelp`: skip
once successful, otherwise recurse and mark the path on success. -/
def tryStep (σ : Nat → Pos → List Pos) (d : Nat) (acc : Option (Bool × SState × Nat))
    (p : Pos) : Option (Bool × SState × Nat) :=
  match acc with
  | none => none
  | some (true, st2, k2) => some (true, st2, k2)
  | some (false, st2, k2) =>
    match findPathHelp σ d p st2 k2 with
    | none => none
    | some (true, st3, k3) => some (true, step st3 p, k3)
    | some (false, st3, k3) => some (false, st3, k3)

end B

theorem helpB_zero (σ : Nat → Pos → List Pos) (s : Pos) (st : B.SState) (k : Nat) :
    B.findPathHelp σ 0 s st k = none := rfl

theorem helpB_succ (σ : Nat → Pos → List Pos) (d : Nat) (s : Pos) (st : B.SState) (k : Nat) :
    B.findPathHelp σ (d + 1) s st k =
      if getTile st.tiles s = Tile.Goal then some (true, st, k)
      else
        ((σ k s).filter fun p => allowed st.tiles p && !(decide (p ∈ st.visited))).foldl
          (B.tryStep σ d)
          (some (false,
            ((σ k s).filter fun p => allowed st.tiles p && !(decide (p ∈ st.visited))).foldl
              B.visit st, k + 1)) := rfl

/-- During the animated search a tile either keeps its value or is repainted
`Visited` or `Path`. -/
def TilesAug (t0 t1 : Grid) : Prop :=
  ∀ p, getTile t1 p = getTile t0 p ∨ getTile t1 p = Tile.Visited ∨ getTile t1 p = Tile.Path

theorem tilesAug_refl (t : Grid) : TilesAug t t := fun _ => Or.inl rfl

theorem tilesAug_trans {t0 t1 t2 : Grid} (h1 : TilesAug t0 t1) (h2 : TilesAug t1 t2) :
    TilesAug t0 t2 := by
  intro p
  rcases h2 p with h | h | h
  · rw [h]
    exact h1 p
  · exact Or.inr (Or.inl h)
  · exact Or.inr (Or.inr h)

theorem tile_after_setTileB (t : Grid) (q : Pos) (v : Tile) (p : Pos) :
    getTile (B.setTile t q v) p = getTile t p ∨ getTile (B.setTile t q v) p = v := by
  rw [getTile_eq_bind, getTile_eq_bind]
  unfold B.setTile
  by_cases hy : 0 ≤ p.2
  · rw [listGet?_nonneg hy, listGet?_nonneg hy, setWith_getElem?]
    rcases hrow : t[p.2.toNat]? with _ | row
    · exact Or.inl rfl
    · simp only [Option.map_some', Option.some_bind]
      by_cases hc : ((p.2.toNat : Nat) : Int) = q.2
      · rw [if_pos hc]
        by_cases hx : 0 ≤ p.1
        · rw [listGet?_nonneg hx, listGet?_nonneg hx, set_getElem?]
          rcases hcell : row[p.1.toNat]? with _ | e
          · exact Or.inl rfl
          · simp only [Option.map_some']
            by_cases hc2 : ((p.1.toNat : Nat) : Int) = q.1
            · rw [if_pos hc2]
              exact Or.inr rfl
            · rw [if_neg hc2]
              exact Or.inl rfl
        · rw [listGet?_neg (by omega), listGet?_neg (by omega)]
          exact Or.inl rfl
      · rw [if_neg hc]
        exact Or.inl rfl
  · rw [listGet?_neg (by omega), listGet?_neg (by omega)]
    exact Or.inl rfl

theorem visit_tilesAug (st : B.SState) (q : Pos) : TilesAug st.tiles (B.visit st q).tiles := by
  unfold B.visit
  by_cases hv : q ∈ st.visited
  · rw [if_pos hv]
    exact tilesAug_refl _
  · rw [if_neg hv]
    simp only
    by_cases hg : getTile st.tiles q ≠ Tile.Goal
    · rw [if_pos hg]
      intro p
      rcases tile_after_setTileB st.tiles q Tile.Visited p with h | h
      · exact Or.inl h
      · exact Or.inr (Or.inl h)
    · rw [if_neg hg]
      exact tilesAug_refl _

theorem step_tilesAug (st : B.SState) (q : Pos) : TilesAug st.tiles (B.step st q).tiles := by
  unfold B.step
  simp only
  by_cases hg : getTile st.tiles q ≠ Tile.Goal
  · rw [if_pos hg]
    intro p
    rcases tile_after_setTileB st.tiles q Tile.Path p with h | h
    · exact Or.inl h
    · exact Or.inr (Or.inr h)
  · rw [if_neg hg]
    exact tilesAug_refl _

theorem foldl_visit_tilesAug : ∀ (l : List Pos) (st : B.SState),
    TilesAug st.tiles ((l.foldl B.visit st).tiles)
  | [], st => tilesAug_refl _
  | q :: rest, st => by
    rw [List.foldl_cons]
    exact tilesAug_trans (visit_tilesAug st q) (foldl_visit_tilesAug rest (B.visit st q))

theorem foldl_tryStep_none (σ : Nat → Pos → List Pos) (d : Nat) :
    ∀ l : List Pos, l.foldl (B.tryStep σ d) none = none
  | [] => rfl
  | _ :: rest => foldl_tryStep_none σ d rest

theorem foldl_tryStep_true (σ : Nat → Pos → List Pos) (d : Nat) (st0 : B.SState) (k0 : Nat) :
    ∀ l : List Pos, l.foldl (B.tryStep σ d) (some (true, st0, k0)) = some (true, st0, k0)
  | [] => rfl
  | _ :: rest => foldl_tryStep_true σ d st0 k0 rest

theorem helpB_tilesAug {σ : Nat → Pos → List Pos} :
    ∀ (d : Nat) (s : Pos) (st : B.SState) (k : Nat) {b : Bool} {st' : B.SState} {k' : Nat},
      B.findPathHelp σ d s st k = some (b, st', k') → TilesAug st.tiles st'.tiles := by
  intro d
  induction d with
  | zero =>
    intro s st k b st' k' h
    exact absurd h (by simp [helpB_zero])
  | succ d ih =>
    intro s st k b st' k' h
    rw [helpB_succ] at h
    by_cases hg : getTile st.tiles s = Tile.Goal
    · rw [if_pos hg] at h
      simp only [Option.some.injEq, Prod.mk.injEq] at h
      rw [← h.2.1]
      exact tilesAug_refl _
    · rw [if_neg hg] at h
      have aux : ∀ (l : List Pos) (st0 : B.SState) (k0 : Nat) {b : Bool} {st' : B.SState}
          {k' : Nat},
          TilesAug st.tiles st0.tiles →
          l.foldl (B.tryStep σ d) (some (false, st0, k0)) = some (b, st', k') →
          TilesAug st.tiles st'.tiles := by
        intro l
        induction l with
        | nil =>
          intro st0 k0 b st' k' h0 hf
          simp only [List.foldl_nil, Option.some.injEq, Prod.mk.injEq] at hf
          rw [← hf.2.1]
          exact h0
        | cons p rest ihl =>
          intro st0 k0 b st' k' h0 hf
          rw [List.foldl_cons] at hf
          rcases hc : B.findPathHelp σ d p st0 k0 with _ | ⟨b3, st3, k3⟩
          · rw [show B.tryStep σ d (some (false, st0, k0)) p = none from by
              simp [B.tryStep, hc]] at hf
            rw [foldl_tryStep_none] at hf
            exact absurd hf (by simp)
          · have h3 : TilesAug st.tiles st3.tiles := tilesAug_trans h0 (ih p st0 k0 hc)
            rcases b3 with _ | _
            · rw [show B.tryStep σ d (some (false, st0, k0)) p = some (false, st3, k3) from by
                simp [B.tryStep, hc]] at hf
              exact ihl st3 k3 h3 hf
            · rw [show B.tryStep σ d (some (false, st0, k0)) p = some (true, B.step st3 p, k3)
                from by simp [B.tryStep, hc]] at hf
              rw [foldl_tryStep_true] at hf
              simp only [Option.some.injEq, Prod.mk.injEq] at hf
              rw [← hf.2.1]
              exact tilesAug_trans h3 (step_tilesAug st3 p)
      exact aux _ _ _ (foldl_visit_tilesAug _ st) h

end Pathfinding

namespace Pathfinding

theorem shuffles_sigma0 : Shuffles sigma0 := fun _ _ => List.Perm.refl _

/-- C1: the claim "any non-empty path returned by findPath never contains a
Wall position, never repeats a position, and is 4-connected" fails on the
code: the base case of `findPathHelp` returns `[...steps, start]`, so the
goal position is appended once by the base case and once more by the caller
that prepends it, and the returned path repeats the goal (the final step has
Manhattan distance 0).  On the 1-wide, 2-high grid `[[Player], [Goal]]` with
start `(0, 0)` the search returns `[(0, 1), (0, 1)]`. -/
theorem c1_goal_duplicated :
    A.findPath [[Tile.Player], [Tile.Goal]] sigma0 ((0 : Int), (0 : Int)) =
      [((0 : Int), (1 : Int)), ((0 : Int), (1 : Int))] ∧
    ¬ (A.findPath [[Tile.Player], [Tile.Goal]] sigma0 ((0 : Int), (0 : Int))).Nodup := by
  decide

/-- C2 (counterexample): on the grid `[[Goal, Player, Goal]]` with start
`(1, 0)` and the identity shuffle, the first candidate `(0, 0)` succeeds
(its recursive call returns the non-empty `[(0, 0)]`), yet `findPath`
returns the second candidate's path `[(2, 0), (2, 0)]`: the first success
is not the one kept, and the sibling after a success was still explored. -/
theorem c2_counterexample :
    A.movesOf [[Tile.Goal, Tile.Player, Tile.Goal]] sigma0 0 ∅ ((1 : Int), (0 : Int)) =
      [((0 : Int), (0 : Int)), ((2 : Int), (0 : Int))] ∧
    (A.findPathHelp [[Tile.Goal, Tile.Player, Tile.Goal]] sigma0 3 ((0 : Int), (0 : Int)) []
        ((∅ : Finset Pos) ∪
          (A.movesOf [[Tile.Goal, Tile.Player, Tile.Goal]] sigma0 0 ∅
            ((1 : Int), (0 : Int))).toFinset) 1).map (fun x => x.1) =
      some [((0 : Int), (0 : Int))] ∧
    A.findPath [[Tile.Goal, Tile.Player, Tile.Goal]] sigma0 ((1 : Int), (0 : Int)) =
      [((2 : Int), (0 : Int)), ((2 : Int), (0 : Int))] := by
  decide

/-- C2 (amended): candidates are tried in the shuffled order, but the
`reduce` does not stop at the first success: the accumulator is overwritten
by every later successful candidate, so the path element prepended to the
returned continuation is the LAST candidate whose recursive call succeeds,
and all remaining siblings are still recursed into. -/
theorem c2_last_success_wins (g : Grid) (σ : Nat → Pos → List Pos) (d : Nat)
    (steps : List Pos) (m1 : List Pos) (p : Pos) (s0 s1 : List Pos) (vis0 vis1 : Finset Pos)
    (k0 k1 : Nat) (found : List Pos) (vis2 : Finset Pos) (k2 : Nat)
    (h1 : m1.foldl (A.reduceStep g σ d steps) (some (s0, vis0, k0)) = some (s1, vis1, k1))
    (h2 : A.findPathHelp g σ d p steps vis1 k1 = some (found, vis2, k2))
    (h3 : found ≠ []) :
    (m1 ++ [p]).foldl (A.reduceStep g σ d steps) (some (s0, vis0, k0)) =
      some (p :: found, vis2, k2) := by
  rw [List.foldl_append, h1, List.foldl_cons, reduceStep_child_some h2, if_neg h3,
    List.foldl_nil]

/-- Witness for C2 (amended): an already-successful accumulator
`[(5, 5)]` is overwritten by the later successful candidate `(0, 0)`. -/
theorem c2_last_success_wins_witness :
    ([] ++ [((0 : Int), (0 : Int))]).foldl (A.reduceStep [[Tile.Goal]] sigma0 1 [])
        (some ([((5 : Int), (5 : Int))], ∅, 0)) =
      some ([((0 : Int), (0 : Int)), ((0 : Int), (0 : Int))], ∅, 0) :=
  c2_last_success_wins [[Tile.Goal]] sigma0 1 [] [] ((0 : Int), (0 : Int))
    [((5 : Int), (5 : Int))] [((5 : Int), (5 : Int))] ∅ ∅ 0 0 [((0 : Int), (0 : Int))] ∅ 0
    rfl (by decide) (by decide)

end Pathfinding

namespace Pathfinding

/-- C3 (counterexample): the grid `[[Empty, Player, Goal]]` contains no Wall
tile, has a Goal at `(2, 0)`, and `(0, 0)` is an in-bounds start distinct
from the goal, yet the search fails: the stray `Player` tile at `(1, 0)`
blocks the only route (`allowed` rejects `Player` tiles as well). -/
theorem c3_counterexample :
    (∀ p ∈ allCells [[Tile.Empty, Tile.Player, Tile.Goal]],
      getTile [[Tile.Empty, Tile.Player, Tile.Goal]] p ≠ Tile.Wall) ∧
    getTile [[Tile.Empty, Tile.Player, Tile.Goal]] ((2 : Int), (0 : Int)) = Tile.Goal ∧
    ((0 : Int), (0 : Int)) ∈ allCells [[Tile.Empty, Tile.Player, Tile.Goal]] ∧
    ((0 : Int), (0 : Int)) ≠ ((2 : Int), (0 : Int)) ∧
    A.findPath [[Tile.Empty, Tile.Player, Tile.Goal]] sigma0 ((0 : Int), (0 : Int)) = [] := by
  decide

/-- C3 (amended): for every rectangular grid with no Wall tile and no Player
tile other than possibly at the start, with a Goal tile somewhere, and for
every sequence of shuffle outcomes, the search from any in-bounds start
returns a non-empty path whose last position holds the Goal tile. -/
theorem c3_open_grid_success (g : Grid) (σ : Nat → Pos → List Pos) (s gp : Pos)
    (hσ : Shuffles σ)
    (hrect : ∀ row ∈ g, row.length = (g.headD []).length)
    (hW : ∀ p ∈ allCells g, getTile g p ≠ Tile.Wall)
    (hP : ∀ p ∈ allCells g, getTile g p = Tile.Player → p = s)
    (hs : s ∈ allCells g) (hgp : gp ∈ allCells g) (hgoal : getTile g gp = Tile.Goal) :
    A.findPath g σ s ≠ [] ∧
      ∃ q, (A.findPath g σ s).getLast? = some q ∧ getTile g q = Tile.Goal := by
  obtain ⟨r, vis', k', hsome, hsub, hcount⟩ :=
    @help_total g σ hσ (cellCount g + 1) s [] ∅ 0 (by simp [freeCount_empty])
  have hfp : A.findPath g σ s = r := by
    unfold A.findPath
    rw [hsome]
  have hrne : r ≠ [] := by
    intro hr
    subst hr
    obtain ⟨hgoalS, hvsub, hnb, hcl⟩ := help_fail hσ _ s [] ∅ 0 hsome
    have hreach := reach_open hrect
      (fun p hp => hW p (mem_allCells.2 hp))
      (fun p hp hpl => hP p (mem_allCells.2 hp) hpl)
      (mem_allCells.1 hs) (mdist s gp) gp (mem_allCells.1 hgp) rfl
    have hwalk : ∀ t, Reaches (fun p => allowed g p = true) s t → t = s ∨ t ∈ vis' := by
      intro t ht
      induction ht with
      | refl => exact Or.inl rfl
      | step hq hd hok ih2 =>
        rcases ih2 with rfl | hqv
        · exact Or.inr (hnb _ (mem_baseNeighbors_iff.2 hd) hok)
        · exact Or.inr ((hcl _ hqv (Finset.not_mem_empty _)).2 _
            (mem_baseNeighbors_iff.2 hd) hok)
    rcases hwalk gp hreach with rfl | hgv
    · exact hgoalS hgoal
    · exact ((hcl gp hgv (Finset.not_mem_empty _)).1) hgoal
  refine ⟨by rw [hfp]; exact hrne, ?_⟩
  obtain ⟨q, hlast, hqgoal, -⟩ := help_success hσ s _ s ∅ 0 hsome hrne Reaches.refl
  refine ⟨q, ?_, hqgoal⟩
  rw [hfp]
  exact hlast

/-- Witness for C3 (amended) on the open grid `[[Player, Goal]]`. -/
theorem c3_witness :
    A.findPath [[Tile.Player, Tile.Goal]] sigma0 ((0 : Int), (0 : Int)) ≠ [] :=
  (c3_open_grid_success [[Tile.Player, Tile.Goal]] sigma0 ((0 : Int), (0 : Int))
    ((1 : Int), (0 : Int)) shuffles_sigma0 (by decide) (by decide) (by decide) (by decide)
    (by decide) (by decide)).1

/-- C4 (counterexample): on the wall-free 1-wide, 2-high grid
`[[Empty], [Empty]]` (width times height equals 2) a run from `(0, 0)`
performs 3 expansions: the start tile is expanded twice (it is re-entered as
a candidate of its own neighbour), so the claimed bound of width times
height expansions, and "each position is expanded at most once", both
fail. -/
theorem c4_counterexample :
    (A.findPathHelp [[Tile.Empty], [Tile.Empty]] sigma0 3 ((0 : Int), (0 : Int)) [] ∅ 0).map
        (fun x => x.2.2) = some 3 ∧
    cellCount [[Tile.Empty], [Tile.Empty]] = 2 := by
  decide

/-- C4 (amended): with any shuffle oracle the search terminates (the fuelled
recursion returns a value at fuel `cellCount g + 1`), and the total number
of expansions — the final value of the ghost counter, which counts the
calls that compute `moves` — is at most `cellCount g + 1`, i.e. width times
height plus one on a rectangular grid; the extra expansion is the possible
re-expansion of the start tile. -/
theorem c4_termination_bound (g : Grid) (σ : Nat → Pos → List Pos) (s : Pos)
    (hσ : Shuffles σ) :
    A.findPathHelp g σ (cellCount g + 1) s [] ∅ 0 ≠ none ∧
    ∀ r vis' k', A.findPathHelp g σ (cellCount g + 1) s [] ∅ 0 = some (r, vis', k') →
      k' ≤ cellCount g + 1 := by
  obtain ⟨r, vis', k', hsome, -, hcount⟩ :=
    @help_total g σ hσ (cellCount g + 1) s [] ∅ 0 (by simp [freeCount_empty])
  rw [freeCount_empty] at hcount
  constructor
  · rw [hsome]
    simp
  · intro r2 vis2 k2 h2
    rw [hsome] at h2
    simp only [Option.some.injEq, Prod.mk.injEq] at h2
    omega

/-- Witness for C4 (amended): the search on `[[Empty], [Empty]]` from
`(0, 0)` returns a value at fuel `cellCount + 1`. -/
theorem c4_witness :
    A.findPathHelp [[Tile.Empty], [Tile.Empty]] sigma0
      (cellCount [[Tile.Empty], [Tile.Empty]] + 1) ((0 : Int), (0 : Int)) [] ∅ 0 ≠ none :=
  (c4_termination_bound [[Tile.Empty], [Tile.Empty]] sigma0 ((0 : Int), (0 : Int))
    shuffles_sigma0).1

/-- C5: if every 4-connected route from the start to a Goal tile crosses a
Wall (no Goal position is reachable through non-Wall tiles), then for every
sequence of shuffle outcomes `findPath` returns the empty path (and, the
model being total, no exception is raised). -/
theorem c5_enclosed_goal_empty (g : Grid) (σ : Nat → Pos → List Pos) (s : Pos)
    (hσ : Shuffles σ)
    (henc : ∀ p, getTile g p = Tile.Goal →
      ¬ Reaches (fun q => getTile g q ≠ Tile.Wall) s p) :
    A.findPath g σ s = [] := by
  unfold A.findPath
  rcases hres : A.findPathHelp g σ (cellCount g + 1) s [] ∅ 0 with _ | ⟨r, vis', k'⟩
  · rfl
  · show r = []
    by_contra hr
    obtain ⟨gp, hlast, hgoal, hreach⟩ :=
      help_success hσ s _ s ∅ 0 hres hr Reaches.refl
    exact henc gp hgoal hreach

/-- Witness for C5: the 3 by 3 grid whose centre Goal is ringed by Walls;
the start `(0, 0)` is cut off and the search returns the empty path. -/
theorem c5_witness :
    A.findPath [[Tile.Player, Tile.Wall, Tile.Empty], [Tile.Wall, Tile.Goal, Tile.Wall],
      [Tile.Empty, Tile.Wall, Tile.Empty]] sigma0 ((0 : Int), (0 : Int)) = [] := by
  apply c5_enclosed_goal_empty _ _ _ shuffles_sigma0
  intro p hp hreach
  have hclose : ∀ t,
      Reaches (fun q => getTile [[Tile.Player, Tile.Wall, Tile.Empty],
        [Tile.Wall, Tile.Goal, Tile.Wall], [Tile.Empty, Tile.Wall, Tile.Empty]] q ≠ Tile.Wall)
        ((0 : Int), (0 : Int)) t → t = ((0 : Int), (0 : Int)) := by
    intro t ht
    induction ht with
    | refl => rfl
    | step hq hd hok ih2 =>
      subst ih2
      have hr := mem_baseNeighbors_iff.2 hd
      simp only [baseNeighbors, List.mem_cons, List.not_mem_nil, or_false] at hr
      rcases hr with rfl | rfl | rfl | rfl <;> exact absurd (by decide) hok
  have hploc : p = ((1 : Int), (1 : Int)) := by
    by_cases hin : InB [[Tile.Player, Tile.Wall, Tile.Empty], [Tile.Wall, Tile.Goal, Tile.Wall],
        [Tile.Empty, Tile.Wall, Tile.Empty]] p
    · have hmem := mem_allCells.2 hin
      have hl : allCells [[Tile.Player, Tile.Wall, Tile.Empty],
          [Tile.Wall, Tile.Goal, Tile.Wall], [Tile.Empty, Tile.Wall, Tile.Empty]] =
          [((0 : Int), (0 : Int)), ((1 : Int), (0 : Int)), ((2 : Int), (0 : Int)),
           ((0 : Int), (1 : Int)), ((1 : Int), (1 : Int)), ((2 : Int), (1 : Int)),
           ((0 : Int), (2 : Int)), ((1 : Int), (2 : Int)), ((2 : Int), (2 : Int))] := by
        decide
      rw [hl] at hmem
      simp only [List.mem_cons, List.not_mem_nil, or_false] at hmem
      rcases hmem with rfl | rfl | rfl | rfl | rfl | rfl | rfl | rfl | rfl <;>
        first
          | rfl
          | exact absurd hp (by decide)
    · exact absurd hp (by rw [getTile_of_not_inb hin]; decide)
  rw [hploc] at hreach
  exact absurd (hclose _ hreach) (by decide)

/-- C6 (counterexample): with Player and Goal on the same tile the search
does not yield the empty path: on the grid `[[Goal]]` with start `(0, 0)`,
`findPath` returns the one-element path `[(0, 0)]`. -/
theorem c6_counterexample :
    A.findPath [[Tile.Goal]] sigma0 ((0 : Int), (0 : Int)) = [((0 : Int), (0 : Int))] ∧
    A.findPath [[Tile.Goal]] sigma0 ((0 : Int), (0 : Int)) ≠ [] := by
  decide

/-- C6 (amended): when the start tile holds the Goal, `findPath` returns the
one-element path `[start]` (the base case appends the start to the empty
`steps` accumulator), not the empty path. -/
theorem c6_start_on_goal (g : Grid) (σ : Nat → Pos → List Pos) (s : Pos)
    (hg : getTile g s = Tile.Goal) : A.findPath g σ s = [s] := by
  unfold A.findPath
  rw [help_succ, if_pos hg]
  rfl

/-- Witness for C6 (amended) at the concrete grid `[[Goal]]`. -/
theorem c6_witness :
    A.findPath [[Tile.Goal]] sigma0 ((0 : Int), (0 : Int)) = [((0 : Int), (0 : Int))] :=
  c6_start_on_goal [[Tile.Goal]] sigma0 ((0 : Int), (0 : Int)) (by decide)

end Pathfinding

namespace Pathfinding

/-- C7: the claim "the final revealed tile (the goal) transitions to
ReachedGoal; after playback the goal position holds ReachedGoal" fails on
the code.  Because `findPath` returns the goal twice (see C1), `walk` first
repaints the goal `ReachedGoal` and then, on the duplicate, repaints it
`Path` (its tile is no longer `Goal`), so playback ends with the goal
holding `Path`, not `ReachedGoal`. -/
theorem c7_playback_eval :
    A.walk [[Tile.Player], [Tile.Goal]]
        (A.findPath [[Tile.Player], [Tile.Goal]] sigma0 ((0 : Int), (0 : Int))) =
      some [[Tile.Player], [Tile.Path]] ∧
    getTile [[Tile.Player], [Tile.Path]] ((0 : Int), (1 : Int)) ≠ Tile.ReachedGoal := by
  decide

/-- C8: `getTile` is total (it is a function into `Tile`); every
out-of-bounds position — negative coordinates included — reads `Wall`, and
every in-bounds position reads the stored tile of the matrix. -/
theorem c8_getTile_total (g : Grid) (p : Pos) :
    (¬ InB g p → getTile g p = Tile.Wall) ∧
    (InB g p → getTile g p = (g.getD p.2.toNat []).getD p.1.toNat Tile.Empty) :=
  ⟨fun h => getTile_of_not_inb h, fun h => getTile_inb h⟩

/-- Witness for C8: both branches at concrete positions of `[[Goal]]`. -/
theorem c8_witness :
    getTile [[Tile.Goal]] ((-1 : Int), (0 : Int)) = Tile.Wall ∧
    getTile [[Tile.Goal]] ((0 : Int), (0 : Int)) =
      (([[Tile.Goal]] : Grid).getD ((0 : Int), (0 : Int)).2.toNat []).getD
        ((0 : Int), (0 : Int)).1.toNat Tile.Empty :=
  ⟨(c8_getTile_total [[Tile.Goal]] ((-1 : Int), (0 : Int))).1 (by decide),
   (c8_getTile_total [[Tile.Goal]] ((0 : Int), (0 : Int))).2 (by decide)⟩

/-- C9: out-of-bounds `setTile` never corrupts another cell.  In the main
variant the call either throws (`none`, when the row index is bad — the
`state.tiles[y]!` read) or rebuilds the grid unchanged (when only the column
index is bad); in the animated variant it always leaves the grid
unchanged. -/
theorem c9_setTile_oob (g : Grid) (p : Pos) (t : Tile) (h : ¬ InB g p) :
    (A.setTile g p t = none ∨ A.setTile g p t = some g) ∧ B.setTile g p t = g := by
  unfold A.setTile B.setTile
  rcases hy : listGet? g p.2 with _ | row
  · refine ⟨Or.inl rfl, ?_⟩
    have hIdx : p.2 < 0 ∨ (g.length : Int) ≤ p.2 := by
      by_cases h2 : 0 ≤ p.2
      · right
        rw [listGet?_nonneg h2] at hy
        have hlen : ¬ p.2.toNat < g.length := by
          intro hlt
          rw [getElem?_eq_some_getD hlt ([] : List Tile)] at hy
          exact absurd hy (by simp)
        omega
      · left
        omega
    exact setWith_oob _ hIdx
  · obtain ⟨hy0, hyget⟩ := listGet?_eq_some.1 hy
    have hylen : p.2.toNat < g.length := (List.getElem?_eq_some.1 hyget).1
    have hrow : row = g.getD p.2.toNat [] := by
      rw [List.getD_eq_getElem?_getD, hyget]
      rfl
    have hxIdx : p.1 < 0 ∨ (row.length : Int) ≤ p.1 := by
      by_cases h1 : 0 ≤ p.1
      · right
        have hnb : ¬ p.1.toNat < row.length := by
          intro hlt
          exact h ⟨h1, hy0, hylen, hrow ▸ hlt⟩
        omega
      · left
        omega
    have hset : set row p.1 t = row := set_oob t hxIdx
    refine ⟨Or.inr ?_, ?_⟩
    · show some (set g p.2 (set row p.1 t)) = some g
      rw [hset, set_self hy]
    · exact setWith_fix _ hy hset

/-- Witness for C9: column index out of range on `[[Empty]]`. -/
theorem c9_witness :
    (A.setTile [[Tile.Empty]] ((1 : Int), (0 : Int)) Tile.Wall = none ∨
      A.setTile [[Tile.Empty]] ((1 : Int), (0 : Int)) Tile.Wall = some [[Tile.Empty]]) ∧
    B.setTile [[Tile.Empty]] ((1 : Int), (0 : Int)) Tile.Wall = [[Tile.Empty]] :=
  c9_setTile_oob [[Tile.Empty]] ((1 : Int), (0 : Int)) Tile.Wall (by decide)

/-- C10 (counterexample): the claim "the search leaves every grid tile
unchanged" fails for the repository's animated variant: its search on
`[[Player, Empty, Goal]]` from `(0, 0)` repaints the `Empty` tile at
`(1, 0)` to `Path`. -/
theorem c10_counterexample :
    ((B.findPath [[Tile.Player, Tile.Empty, Tile.Goal]] sigma0 ((0 : Int), (0 : Int))).map
      fun x => getTile x.2.1.tiles ((1 : Int), (0 : Int))) = some Tile.Path ∧
    getTile [[Tile.Player, Tile.Empty, Tile.Goal]] ((1 : Int), (0 : Int)) = Tile.Empty := by
  decide

/-- C10 (amended): the main variant's `findPath` is a pure function of the
grid (it takes the grid as a value and only returns a path); the animated
variant's search does mutate the grid, but each tile either keeps its prior
state or is repainted `Visited` (while marking candidates) or `Path` (while
unwinding a success). -/
theorem c10_mutation_bound (σ : Nat → Pos → List Pos) (d : Nat) (s : Pos) (st : B.SState)
    (k : Nat) (b : Bool) (st' : B.SState) (k' : Nat)
    (h : B.findPathHelp σ d s st k = some (b, st', k')) :
    ∀ p, getTile st'.tiles p = getTile st.tiles p ∨ getTile st'.tiles p = Tile.Visited ∨
      getTile st'.tiles p = Tile.Path :=
  helpB_tilesAug d s st k h

/-- Witness for C10 (amended) at the concrete run of the counterexample. -/
theorem c10_witness :
    getTile (B.SState.mk [[Tile.Player, Tile.Path, Tile.Goal]]
        {((2 : Int), (0 : Int)), ((1 : Int), (0 : Int))}
        [((2 : Int), (0 : Int)), ((1 : Int), (0 : Int))]).tiles ((1 : Int), (0 : Int)) =
      getTile (B.SState.mk [[Tile.Player, Tile.Empty, Tile.Goal]] ∅ []).tiles
        ((1 : Int), (0 : Int)) ∨
    getTile (B.SState.mk [[Tile.Player, Tile.Path, Tile.Goal]]
        {((2 : Int), (0 : Int)), ((1 : Int), (0 : Int))}
        [((2 : Int), (0 : Int)), ((1 : Int), (0 : Int))]).tiles ((1 : Int), (0 : Int)) =
      Tile.Visited ∨
    getTile (B.SState.mk [[Tile.Player, Tile.Path, Tile.Goal]]
        {((2 : Int), (0 : Int)), ((1 : Int), (0 : Int))}
        [((2 : Int), (0 : Int)), ((1 : Int), (0 : Int))]).tiles ((1 : Int), (0 : Int)) =
      Tile.Path :=
  c10_mutation_bound sigma0 4 ((0 : Int), (0 : Int))
    (B.SState.mk [[Tile.Player, Tile.Empty, Tile.Goal]] ∅ []) 0 true
    (B.SState.mk [[Tile.Player, Tile.Path, Tile.Goal]]
      {((2 : Int), (0 : Int)), ((1 : Int), (0 : Int))}
      [((2 : Int), (0 : Int)), ((1 : Int), (0 : Int))]) 2 rfl ((1 : Int), (0 : Int))

end Pathfinding
